import Mathlib

/-!
# Verification of the preOBD registry-compiler tools

Shallow embedding of the pure core of `tools/preobd_config/registry_parser.py`,
`tools/openems_config/registry_parser.py`, `tools/openems_config/validators.py`,
`tools/preobd_config/platform.py` and the format converters of
`tools/configure.py`, together with theorems settling the frozen claims about
them.

Modelling conventions:
* Python strings are Lean `String`s; `str.upper()` / `str.lower()` are modelled
  by the ASCII simple case mapping (the registry dialect is ASCII), `str.strip()`
  by `String.trim`.
* Python's unbounded integers are `Nat`/`Int`; the final 16-bit mask
  `& 0xFFFF` of the hash is written as `% 2 ^ 16`.
* Python `dict`s that are only read through key lookup are modelled as
  functions into `Option`; dicts with field iteration are association lists.
* A Python function that can raise is modelled with an `Option` result
  (`none` = an exception propagates).
* Validator error/warning message strings are modelled as structured findings
  carrying exactly the data interpolated into the Python f-string, plus the
  loop position of the emitting entry (in Python the emitter is identified by
  the interpolated name/alias; the position makes this explicit).
-/

namespace PreOBD

/-- ASCII simple upper-case mapping of one character, modelling Python's
per-character `str.upper()` on the ASCII range used by the registries. -/
def pyUpperChar (c : Char) : Char :=
  if 97 ≤ c.toNat ∧ c.toNat ≤ 122 then Char.ofNat (c.toNat - 32) else c

/-- Model of Python `s.upper()`. -/
def pyUpper (s : String) : String :=
  String.mk (s.data.map pyUpperChar)

/-- ASCII simple lower-case mapping of one character, modelling Python's
per-character `str.lower()`. -/
def pyLowerChar (c : Char) : Char :=
  if 65 ≤ c.toNat ∧ c.toNat ≤ 90 then Char.ofNat (c.toNat + 32) else c

/-- Model of Python `s.lower()`. -/
def pyLower (s : String) : String :=
  String.mk (s.data.map pyLowerChar)

/-- The accumulator loop of `djb2_hash`:
`hash_value = ((hash_value << 5) + hash_value) + ord(c)` over the characters. -/
def djb2Core (l : List Char) : Nat :=
  l.foldl (fun h c => ((h <<< 5) + h) + c.toNat) 5381

/-- `djb2_hash` from `registry_parser.py` (identical in both the
`preobd_config` and `openems_config` variants): empty string returns `0`;
otherwise the DJB2 accumulator runs over the upper-cased string, and the
result is masked to 16 bits (`& 0xFFFF`, written `% 2 ^ 16`). -/
def djb2_hash (s : String) : Nat :=
  if s = "" then 0 else djb2Core (pyUpper s).data % 2 ^ 16

/-- Reference function following the words of the claim/spec (§4.3):
the accumulator starts at 5381 and, for each character of the upper-cased
form of the input, becomes accumulator×33 plus the codepoint
(`(acc<<5)+acc+c`); the result is the low 16 bits of the final accumulator,
and the empty string hashes to 0. -/
def djb2SpecRef (s : String) : Nat :=
  if s = "" then 0
  else ((pyUpper s).data.foldl (fun a c => 33 * a + c.toNat) 5381) % 65536

/-- Python truthiness of an optional string field, as tested by the
`if not x.get("name"): …` / `if x.get("name"): …` guards of the validators:
an absent key, `None`, and the empty string are all falsy. -/
def truthy : Option String → Bool
  | some s => s != ""
  | none => false

/-- The fields of a parsed sensor dict that the validators read. -/
structure SensorRec where
  index : Nat
  name : Option String
  nameHash : Nat
  is_implemented : Bool
  pinTypeRequirement : Option String
deriving DecidableEq

/-- The fields of a parsed application dict that the validators read.
`defaultSensor` is `none` when the key is absent (`app.get("defaultSensor")`
returning `None`). -/
structure AppRec where
  index : Nat
  name : Option String
  nameHash : Nat
  is_implemented : Bool
  defaultSensor : Option Nat
deriving DecidableEq

/-- The fields of a parsed unit dict that the validators read. -/
structure UnitRec where
  index : Nat
  name : Option String
  nameHash : Nat
  aliasName : Option String
  aliasHash : Nat
deriving DecidableEq

/-- Structured findings of `validate_hash_algorithm`; each constructor carries
exactly the data interpolated into the corresponding Python f-string
("Hash mismatch for SENSOR[i]:name. Expected e, found f", etc.). -/
inductive HashFinding
  | sensorMismatch (index : Nat) (name : String) (expected found : Nat)
  | appMismatch (index : Nat) (name : String) (expected found : Nat)
  | unitNameMismatch (index : Nat) (name : String) (expected found : Nat)
  | unitAliasMismatch (index : Nat) (aliasName : String) (expected found : Nat)
deriving DecidableEq

/-- The sensor loop of `validate_hash_algorithm`: for each sensor with a
truthy name, recompute the hash and report a mismatch. -/
def hashAlgSensors : List SensorRec → List HashFinding
  | [] => []
  | x :: rest =>
    (if truthy x.name then
      (if djb2_hash (x.name.getD "") ≠ x.nameHash then
        [HashFinding.sensorMismatch x.index (x.name.getD "")
          (djb2_hash (x.name.getD "")) x.nameHash]
      else [])
    else []) ++ hashAlgSensors rest

/-- The application loop of `validate_hash_algorithm`. -/
def hashAlgApps : List AppRec → List HashFinding
  | [] => []
  | a :: rest =>
    (if truthy a.name then
      (if djb2_hash (a.name.getD "") ≠ a.nameHash then
        [HashFinding.appMismatch a.index (a.name.getD "")
          (djb2_hash (a.name.getD "")) a.nameHash]
      else [])
    else []) ++ hashAlgApps rest

/-- The unit loop of `validate_hash_algorithm`: per unit, the name check is
followed by the alias check. -/
def hashAlgUnits : List UnitRec → List HashFinding
  | [] => []
  | u :: rest =>
    ((if truthy u.name then
      (if djb2_hash (u.name.getD "") ≠ u.nameHash then
        [HashFinding.unitNameMismatch u.index (u.name.getD "")
          (djb2_hash (u.name.getD "")) u.nameHash]
      else [])
    else []) ++
    (if truthy u.aliasName then
      (if djb2_hash (u.aliasName.getD "") ≠ u.aliasHash then
        [HashFinding.unitAliasMismatch u.index (u.aliasName.getD "")
          (djb2_hash (u.aliasName.getD "")) u.aliasHash]
      else [])
    else [])) ++ hashAlgUnits rest

/-- `validate_hash_algorithm` from `openems_config/validators.py`:
re-computes hashes and reports every stored value that does not match. -/
def validate_hash_algorithm (sensors : List SensorRec) (apps : List AppRec)
    (units : List UnitRec) : List HashFinding :=
  hashAlgSensors sensors ++ hashAlgApps apps ++ hashAlgUnits units

/-- Findings of `validate_hash_collisions`. Each constructor carries the data
interpolated into the Python message (the current entry's name/alias, the
stored owner `hashes[h]`, and the hash) plus the loop position of the current
entry. For units the dict stores the Python values `unit["name"]` /
`unit["alias"]`, and an alias may be `None`, hence `Option String` there. -/
inductive CollFinding
  | sensor (pos : Nat) (name other : String) (h : Nat)
  | app (pos : Nat) (name other : String) (h : Nat)
  | unitName (pos : Nat) (name other : Option String) (h : Nat)
  | unitAlias (pos : Nat) (aliasName other : Option String) (h : Nat)
deriving DecidableEq

/-- The sensor and application loops of `validate_hash_collisions` (the Python
code repeats the same loop for both registries; `mk` selects the finding
constructor). `d` is the `hashes` dict (hash ↦ stored name): a colliding
entry is reported against the stored owner and does not replace it. -/
def nameCollAux (mk : Nat → String → String → Nat → CollFinding) :
    List (Option String × Nat) → Nat → (Nat → Option String) → List CollFinding
  | [], _, _ => []
  | x :: rest, pos, d =>
    if truthy x.1 then
      match d x.2 with
      | some other => mk pos (x.1.getD "") other x.2 :: nameCollAux mk rest (pos + 1) d
      | none => nameCollAux mk rest (pos + 1)
          (fun k => if k = x.2 then some (x.1.getD "") else d k)
    else nameCollAux mk rest (pos + 1) d

/-- The unit loop of `validate_hash_collisions`: `nameHash` and `aliasHash`
share one `hashes` dict. A unit without a truthy name is skipped entirely.
The name check reports when the name hash is already stored and otherwise
stores the name; the alias check then reports only when the alias hash is
stored (in the dict as updated by the name step) and differs from the unit's
own name hash, and otherwise stores the alias (possibly `None`), replacing
any previous owner of that hash. The Python branch structure is unrolled
here: after a name collision the dict is unchanged, so the alias step reads
`d` directly; after a fresh name insertion the alias step reads
`d[nameHash ↦ name]`, whose lookup at `aliasHash` is `some name` when the two
hashes are equal (then no report, by the `h_alias != h_name` guard) and
`d aliasHash` otherwise. -/
def unitCollAux : List UnitRec → Nat → (Nat → Option (Option String)) → List CollFinding
  | [], _, _ => []
  | u :: rest, pos, d =>
    if truthy u.name then
      match d u.nameHash with
      | some other =>
        CollFinding.unitName pos u.name other u.nameHash ::
          (match d u.aliasHash with
           | some other2 =>
             if u.aliasHash ≠ u.nameHash then
               CollFinding.unitAlias pos u.aliasName other2 u.aliasHash ::
                 unitCollAux rest (pos + 1) d
             else
               unitCollAux rest (pos + 1)
                 (fun k => if k = u.aliasHash then some u.aliasName else d k)
           | none =>
             unitCollAux rest (pos + 1)
               (fun k => if k = u.aliasHash then some u.aliasName else d k))
      | none =>
        if u.aliasHash = u.nameHash then
          unitCollAux rest (pos + 1)
            (fun k => if k = u.aliasHash then some u.aliasName
              else if k = u.nameHash then some u.name else d k)
        else
          match d u.aliasHash with
          | some other2 =>
            CollFinding.unitAlias pos u.aliasName other2 u.aliasHash ::
              unitCollAux rest (pos + 1) (fun k => if k = u.nameHash then some u.name else d k)
          | none =>
            unitCollAux rest (pos + 1)
              (fun k => if k = u.aliasHash then some u.aliasName
                else if k = u.nameHash then some u.name else d k)
    else unitCollAux rest (pos + 1) d

/-- `validate_hash_collisions` from `openems_config/validators.py`: checks for
hash collisions within sensors, within applications, and within units (where
name and alias hashes share one namespace). -/
def validate_hash_collisions (sensors : List SensorRec) (apps : List AppRec)
    (units : List UnitRec) : List CollFinding :=
  nameCollAux CollFinding.sensor (sensors.map fun s => (s.name, s.nameHash)) 0 (fun _ => none) ++
  nameCollAux CollFinding.app (apps.map fun a => (a.name, a.nameHash)) 0 (fun _ => none) ++
  unitCollAux units 0 (fun _ => none)

/-- Collision-freedom of two rows of a name registry (sensors/applications):
if both have truthy names, their hashes differ. -/
def distinctNameHashes (x y : Option String × Nat) : Prop :=
  truthy x.1 = true → truthy y.1 = true → x.2 ≠ y.2

/-- Collision-freedom of two distinct units: when both have truthy names, the
sets of hashes they contribute to the shared name/alias namespace are
disjoint (a single unit's own alias hash may still equal its own name hash). -/
def unitHashesDisjoint (x y : UnitRec) : Prop :=
  truthy x.name = true → truthy y.name = true →
    x.nameHash ≠ y.nameHash ∧ x.nameHash ≠ y.aliasHash ∧
    x.aliasHash ≠ y.nameHash ∧ x.aliasHash ≠ y.aliasHash

/-- Following the claim's words (not the code): the number of unordered pairs
of distinct implemented sensors having equal `nameHash`. -/
def sensorCollidingPairCount : List SensorRec → Nat
  | [] => 0
  | x :: rest =>
    (rest.countP fun y => x.is_implemented && y.is_implemented &&
      (x.nameHash == y.nameHash)) + sensorCollidingPairCount rest

/-- Three implemented sensors sharing one hash: a concrete input for the
collision pass. -/
def collSensorsCex : List SensorRec :=
  [⟨0, some "A", 7, true, none⟩, ⟨1, some "B", 7, true, none⟩,
   ⟨2, some "C", 7, true, none⟩]

/-- Findings of `validate_index_references`, carrying the data of the Python
messages: the application's index and name and the referenced sensor index. -/
inductive IdxFinding
  | missingSensor (appIndex : Nat) (appName : Option String) (sensorIndex : Option Nat)
  | unimplementedSensor (appIndex : Nat) (appName : Option String) (sensorIndex : Option Nat)
deriving DecidableEq

/-- `validate_index_references` from `openems_config/validators.py`, returning
`(errors, warnings)`. The Python loop appends to the two lists in one pass;
this is written as the equivalent pair of comprehensions. The membership test
`sensor_index not in sensor_indices` and the subsequent
`next(s for s in sensors if s['index'] == sensor_index)` are both expressed
through `List.find?` (membership in the index set holds exactly when `find?`
succeeds). -/
def validate_index_references (apps : List AppRec) (sensors : List SensorRec) :
    List IdxFinding × List IdxFinding :=
  (apps.filterMap fun a =>
    if a.is_implemented then
      match sensors.find? (fun s => a.defaultSensor == some s.index) with
      | none => some (IdxFinding.missingSensor a.index a.name a.defaultSensor)
      | some _ => none
    else none,
   apps.filterMap fun a =>
    if a.is_implemented then
      match sensors.find? (fun s => a.defaultSensor == some s.index) with
      | none => none
      | some s =>
        if s.is_implemented then none
        else some (IdxFinding.unimplementedSensor a.index a.name a.defaultSensor)
    else none)

/-- Model of Python `s.strip()`: drop leading and trailing whitespace. -/
def pyStrip (s : String) : String :=
  String.mk (((s.data.dropWhile Char.isWhitespace).reverse.dropWhile
    Char.isWhitespace).reverse)

/-- Model of Python `s.startswith(pre)`. -/
def pyStartsWith (s pre : String) : Bool :=
  s.data.take pre.data.length == pre.data

/-- Model of Python `c in s` for a single character. -/
def pyContainsChar (s : String) (c : Char) : Bool :=
  s.data.any (fun x => x == c)

/-- Decimal value of a digit string. -/
def digitsToNat (l : List Char) : Nat :=
  l.foldl (fun a c => 10 * a + (c.toNat - 48)) 0

/-- The digit core of Python `int()`: one or more decimal digits and nothing
else. -/
def pyDigitsParse (t : String) : Option Nat :=
  if t.data ≠ [] ∧ t.data.all Char.isDigit then some (digitsToNat t.data) else none

/-- Model of Python `int(s)`: optional surrounding whitespace, an optional
sign, then one or more decimal digits (underscore grouping is not modelled;
the registries and pin strings never use it). `none` models `ValueError`. -/
def pyIntParse (s : String) : Option Int :=
  let t := pyStrip s
  let core := if pyStartsWith t "-" || pyStartsWith t "+" then t.drop 1 else t
  match pyDigitsParse core with
  | some n => some (if pyStartsWith t "-" then -(n : Int) else (n : Int))
  | none => none

/-- `parse_pin` from `preobd_config/platform.py`: strip and upper-case the pin
string; the literal marker "I2C" is the i2c pin; an "A" prefix followed by an
integer is analog; a bare integer is digital; anything else is `None`. -/
def parse_pin (pin_str : String) : Option (String × Int) :=
  let p := pyUpper (pyStrip pin_str)
  if p = "I2C" then some ("i2c", 0)
  else if pyStartsWith p "A" then
    match pyIntParse (p.drop 1) with
    | some n => some ("analog", n)
    | none => none
  else
    match pyIntParse p with
    | some n => some ("digital", n)
    | none => none

/-- One step of Python `str.replace` modelled on character lists with explicit
fuel (the fuel is the list length; every step consumes at least one character
when the pattern is nonempty): replaces non-overlapping occurrences of `pat`
left to right. -/
def replaceFuel : Nat → List Char → List Char → List Char → List Char
  | 0, _, _, s => s
  | _ + 1, _, _, [] => []
  | fuel + 1, pat, repl, c :: rest =>
    if pat ≠ [] ∧ (c :: rest).take pat.length = pat then
      repl ++ replaceFuel fuel pat repl ((c :: rest).drop pat.length)
    else c :: replaceFuel fuel pat repl rest

/-- Model of Python `s.replace(pat, repl)` for a nonempty pattern (the only
use in the source is `.replace("PIN_", "")`). -/
def pyReplace (s pat repl : String) : String :=
  if pat = "" then s
  else String.mk (replaceFuel s.data.length pat.data repl.data s.data)

/-- The fields of one entry of the persisted-config `inputs` array that
`validate_pin_type_compatibility` reads (`inp.get('idx')`, `inp.get('pin','')`,
`inp.get('sensorIndex')`). -/
structure InputRec where
  idx : Option Nat
  pin : Option String
  sensorIndex : Option Nat
deriving DecidableEq

/-- Findings of `validate_pin_type_compatibility`, carrying the data of the
Python messages (input idx, sensor name, and — where interpolated — the pin
string). -/
inductive PinFinding
  | i2cRequired (idx : Option Nat) (sensorName : Option String) (pin : String)
  | i2cForbidden (idx : Option Nat) (sensorName : Option String)
  | needDigital (idx : Option Nat) (sensorName : Option String) (pin : String)
  | needAnalog (idx : Option Nat) (sensorName : Option String) (pin : String)
deriving DecidableEq

/-- `requirement = pin_requirement.replace("PIN_", "").lower()` from
`validate_pin_type_compatibility`. -/
def pinReq (sensor : SensorRec) : String :=
  pyLower (pyReplace (sensor.pinTypeRequirement.getD "") "PIN_" "")

/-- The loop body of `validate_pin_type_compatibility` for one input: the
selected sensor is the first with matching index; an input whose
`sensorIndex` matches no sensor, a sensor without a truthy
`pinTypeRequirement`, and an unparseable pin are all skipped; each input
yields at most one error (the Python branches `continue` or are chained
`elif`s). -/
def pinCheckOne (sensors : List SensorRec) (inp : InputRec) : Option PinFinding :=
  match sensors.find? (fun s => some s.index == inp.sensorIndex) with
  | none => none
  | some sensor =>
    if truthy sensor.pinTypeRequirement then
      if pinReq sensor = "i2c" then
        if pyUpper (inp.pin.getD "") ≠ "I2C" then
          some (PinFinding.i2cRequired inp.idx sensor.name (inp.pin.getD ""))
        else none
      else if pyUpper (inp.pin.getD "") = "I2C" then
        some (PinFinding.i2cForbidden inp.idx sensor.name)
      else
        match parse_pin (inp.pin.getD "") with
        | none => none
        | some (pin_type, _) =>
          if pinReq sensor = "digital" ∧ pin_type = "analog" then
            some (PinFinding.needDigital inp.idx sensor.name (inp.pin.getD ""))
          else if pinReq sensor = "analog" ∧ pin_type = "digital" then
            some (PinFinding.needAnalog inp.idx sensor.name (inp.pin.getD ""))
          else none
    else none

/-- `validate_pin_type_compatibility` from `openems_config/validators.py`:
apply the per-input check over the configured inputs. `platformStr` is
accepted and unused, as in the source. -/
def validate_pin_type_compatibility (config_inputs : List InputRec)
    (sensors : List SensorRec) (platformStr : String) : List PinFinding :=
  config_inputs.filterMap (pinCheckOne sensors)

/-- An I2C-requiring sensor, for the pin-compatibility counterexample. -/
def pinCexSensor : SensorRec := ⟨0, some "BMP280", 0, true, some "PIN_I2C"⟩

/-- An input assigning the pin string "i2c" (lower case) to that sensor. -/
def pinCexInput : InputRec := ⟨some 0, some "i2c", some 0⟩

/-- One entry of the internal (in-memory) input list of `configure.py`. The
calibration payload type is a parameter: the converters copy the dict
untouched, whatever it holds. -/
structure InternalInput (C : Type) where
  input_number : Nat
  pin : String
  application : String
  application_index : Nat
  sensor : String
  sensor_index : Nat
  calibration : Option C

/-- One entry of the unified v1 JSON `inputs` array of `configure.py`. -/
structure UnifiedInput (C : Type) where
  idx : Nat
  pin : String
  application : String
  applicationIndex : Nat
  sensor : String
  sensorIndex : Nat
  calibration : Option C

/-- `convert_to_unified_format` from `configure.py`: rename the internal
fields to the unified ones; copy `calibration` only when present. -/
def convert_to_unified_format {C : Type} (inputs : List (InternalInput C)) :
    List (UnifiedInput C) :=
  inputs.map fun inp =>
    { idx := inp.input_number, pin := inp.pin, application := inp.application,
      applicationIndex := inp.application_index, sensor := inp.sensor,
      sensorIndex := inp.sensor_index, calibration := inp.calibration }

/-- `convert_from_unified_format` from `configure.py`: the inverse renaming. -/
def convert_from_unified_format {C : Type} (inputs : List (UnifiedInput C)) :
    List (InternalInput C) :=
  inputs.map fun inp =>
    { input_number := inp.idx, pin := inp.pin, application := inp.application,
      application_index := inp.applicationIndex, sensor := inp.sensor,
      sensor_index := inp.sensorIndex, calibration := inp.calibration }

/-- A resolved Python field value produced by `_parse_structs`: a string (a
resolved string-macro value or the raw-text fallback), `None`, a boolean, an
integer (enum constant, hex or decimal literal), or a float (kept as its
source text; its numeric value is never consumed by the claims). -/
inductive PyVal
  | str (s : String)
  | pynone
  | bool (b : Bool)
  | int (n : Int)
  | float (txt : String)
deriving DecidableEq

/-- Hexadecimal digit, as accepted by Python `int(_, 16)`. -/
def isHexDigitChar (c : Char) : Bool :=
  c.isDigit || (65 ≤ c.toNat && c.toNat ≤ 70) || (97 ≤ c.toNat && c.toNat ≤ 102)

/-- Value of a hexadecimal digit. -/
def hexVal (c : Char) : Nat :=
  if c.isDigit then c.toNat - 48
  else if 97 ≤ c.toNat then c.toNat - 87
  else c.toNat - 55

/-- Model of Python `int(v, 16)` for a `v` that starts with "0x": the digits
after the prefix must be nonempty hexadecimal digits, else `ValueError`
(`none`). Underscore grouping is not modelled. -/
def pyHexParse (v : String) : Option Int :=
  let ds := (v.drop 2).data
  if ds ≠ [] ∧ ds.all isHexDigitChar then
    some ((ds.foldl (fun a c => 16 * a + hexVal c) 0 : Nat) : Int)
  else none

/-- Exponent suffix of a Python float literal: optional sign then one or more
digits. -/
def expSuffixOk (l : List Char) : Bool :=
  match l with
  | [] => false
  | c :: rest =>
    if c = '+' ∨ c = '-' then rest ≠ [] && rest.all Char.isDigit
    else (c :: rest).all Char.isDigit

/-- Mantissa of a Python float literal: digits around an optional dot, at
least one digit present. -/
def mantissaOk (l : List Char) : Bool :=
  let intPart := l.takeWhile (fun c => c ≠ '.')
  let rest := l.dropWhile (fun c => c ≠ '.')
  match rest with
  | [] => intPart ≠ [] && intPart.all Char.isDigit
  | _ :: frac =>
    intPart.all Char.isDigit && frac.all Char.isDigit &&
      (intPart ≠ [] || frac ≠ [])

/-- Model of Python `float(v)` succeeding: optional sign, mantissa, optional
exponent ("inf"/"nan" and underscores not modelled — they never carry a dot,
and the float branch is only reached when the value contains a dot). -/
def pyFloatOk (v : String) : Bool :=
  let l := match v.data with
    | c :: rest => if c = '+' ∨ c = '-' then rest else v.data
    | [] => v.data
  let mant := l.takeWhile (fun c => c ≠ 'e' ∧ c ≠ 'E')
  let rest := l.dropWhile (fun c => c ≠ 'e' ∧ c ≠ 'E')
  mantissaOk mant && (match rest with | [] => true | _ :: ex => expSuffixOk ex)

/-- The prefix of a character list before the first "//" (Python
`split('//')[0]`). -/
def takeUntilSlashes : List Char → List Char
  | [] => []
  | [c] => [c]
  | c1 :: c2 :: rest =>
    if c1 = '/' ∧ c2 = '/' then []
    else c1 :: takeUntilSlashes (c2 :: rest)

/-- The `value_str` clean-up of the field loop of `_parse_structs`:
`field_match.group(2).strip().split('//')[0].strip()`. -/
def cleanValue (raw : String) : String :=
  pyStrip (String.mk (takeUntilSlashes (pyStrip raw).data))

/-- The field-resolution chain of `_parse_structs` (the `preobd_config`
variant; the `openems_config` variant is the special case `enums = ∅`):
string-macro lookup, enum-constant lookup, `nullptr`, booleans, hex literal
(whose failure raises `ValueError`, modelled as `none`), then
float-or-int literal inside `try`, falling back to the raw text. -/
def resolveField (v : String) (pstr : String → Option String)
    (enums : String → Option Int) : Option PyVal :=
  match pstr v with
  | some s => some (PyVal.str s)
  | none =>
    match enums v with
    | some n => some (PyVal.int n)
    | none =>
      if v = "nullptr" then some PyVal.pynone
      else if v = "true" then some (PyVal.bool true)
      else if v = "false" then some (PyVal.bool false)
      else if pyStartsWith v "0x" then
        match pyHexParse v with
        | some n => some (PyVal.int n)
        | none => none
      else if pyContainsChar v '.' then
        if pyFloatOk v then some (PyVal.float v) else some (PyVal.str v)
      else
        match pyIntParse v with
        | some n => some (PyVal.int n)
        | none => some (PyVal.str v)

/-- One raw struct-literal entry as captured by `entry_pattern` of
`_parse_structs`: the optional `Index N:` annotation (regex group 2), the
verbatim block text (group 1), and the `.field = value` pairs extracted by
`field_pattern` from group 3, in source order, with the raw value text. The
regex layer itself is abstracted into this structure. -/
structure RawEntry where
  annIndex : Option Nat
  raw : String
  fields : List (String × String)
deriving DecidableEq

/-- One resolved registry entry. The Python dict mixes bookkeeping keys
(`index`, `is_implemented`, `raw_c_block`, `used_pstr_macros`) with the
resolved struct fields; they are separated here — the registry dialect has no
struct field with a bookkeeping name, which in Python would overwrite the
bookkeeping entry. -/
structure RegItem where
  index : Nat
  is_implemented : Bool
  raw : String
  usedPstr : List String
  fields : List (String × PyVal)
deriving DecidableEq

/-- `item[key] = value` on the field dict: replace an existing binding or
append a new one. -/
def setField (l : List (String × PyVal)) (k : String) (v : PyVal) :
    List (String × PyVal) :=
  if l.any (fun p => p.1 = k) then l.map (fun p => if p.1 = k then (k, v) else p)
  else l ++ [(k, v)]

/-- Dict lookup on the field dict (keys are unique by construction). -/
def getField (l : List (String × PyVal)) (k : String) : Option PyVal :=
  (l.find? (fun p => p.1 = k)).map (·.2)

/-- The field loop of `_parse_structs`: resolve each `.key = value` pair in
order, accumulating the field dict and the `used_pstr_macros` list (a macro
name is recorded exactly when the string-macro branch fires, i.e. when the
cleaned value is a key of the macro table). A `ValueError` (`none` from
`resolveField`) aborts the whole parse. -/
def resolveFields : List (String × String) → (String → Option String) →
    (String → Option Int) → List (String × PyVal) → List String →
    Option (List (String × PyVal) × List String)
  | [], _, _, acc, used => some (acc, used)
  | (k, vraw) :: rest, pstr, enums, acc, used =>
    let ks := pyStrip k
    let v := cleanValue vraw
    match resolveField v pstr enums with
    | none => none
    | some pv =>
      resolveFields rest pstr enums (setField acc ks pv)
        (if (pstr v).isSome then used ++ [v] else used)

/-- `item.get('label', item.get('name')) is None` ⇒ unimplemented: the entry
is implemented unless its `label` (or, when no `label` field exists, its
`name`) resolved to `None` or neither field exists. -/
def isImplementedOf (fields : List (String × PyVal)) : Bool :=
  match getField fields "label" with
  | some pv => !(pv == PyVal.pynone)
  | none =>
    match getField fields "name" with
    | some pv => !(pv == PyVal.pynone)
    | none => false

/-- The entry loop of `_parse_structs`: `current_index` increments for every
entry; an explicit annotation overrides the positional index but does not
advance the counter differently. -/
def parseStructsGo : List RawEntry → Nat → (String → Option String) →
    (String → Option Int) → Option (List RegItem)
  | [], _, _, _ => some []
  | e :: rest, cur, pstr, enums =>
    let idx := match e.annIndex with | some n => n | none => cur
    match resolveFields e.fields pstr enums [] [] with
    | none => none
    | some (fs, used) =>
      match parseStructsGo rest (cur + 1) pstr enums with
      | none => none
      | some items =>
        some ({ index := idx, is_implemented := isImplementedOf fs, raw := e.raw,
                usedPstr := used, fields := fs } :: items)

/-- `_parse_structs` over the abstracted entry sequence (both parser
variants; the `openems_config` one passes no enum table). A Python exception
in any field discards the whole registry list. -/
def parse_structs (entries : List RawEntry) (pstr : String → Option String)
    (enums : String → Option Int) : Option (List RegItem) :=
  parseStructsGo entries 0 pstr enums

/-- One string-macro definition as written in a header:
`static const char NAME[] PROGMEM = "seg" "seg" …;`, carrying its quote-free
literal segments in source order. The regex layer is abstracted into this
structure. -/
structure PStrDef where
  name : String
  segments : List String
deriving DecidableEq

/-- `_parse_pstr_macros` of `preobd_config/registry_parser.py`: accepts one or
more adjacent quoted literals and joins them; a later definition of the same
name overwrites an earlier one (dict insertion order). -/
def parse_pstr_table_preobd (defs : List PStrDef) : String → Option String :=
  defs.foldl
    (fun d pd => fun k => if k = pd.name then some (String.join pd.segments) else d k)
    (fun _ => none)

/-- `_parse_pstr_macros` of `openems_config/registry_parser.py`: its regex
`= "([^"]+)";` only matches a definition whose value is exactly one nonempty
literal directly followed by the semicolon; any other definition (several
adjacent literals, or one empty literal) produces no table entry at all. -/
def parse_pstr_table_openems (defs : List PStrDef) : String → Option String :=
  defs.foldl
    (fun d pd =>
      match pd.segments with
      | [s] => if s ≠ "" then (fun k => if k = pd.name then some s else d k) else d
      | _ => d)
    (fun _ => none)

/-- Whether a definition consists of exactly one nonempty literal (the only
shape the openems regex matches). -/
def singleNonemptySegment (pd : PStrDef) : Bool :=
  match pd.segments with
  | [s] => s != ""
  | _ => false

/-- A two-literal macro definition, input for the C6 counterexample. -/
def pstrCexDefs : List PStrDef := [⟨"PSTR_X", ["a", "b"]⟩]

lemma charOfNat_toNat_upper {n : Nat} (h1 : 65 ≤ n) (h2 : n ≤ 90) :
    (Char.ofNat n).toNat = n := by
  interval_cases n <;> decide

lemma pyUpperChar_idem (c : Char) : pyUpperChar (pyUpperChar c) = pyUpperChar c := by
  by_cases h : 97 ≤ c.toNat ∧ c.toNat ≤ 122
  · have h65 : 65 ≤ c.toNat - 32 := by omega
    have h90 : c.toNat - 32 ≤ 90 := by omega
    have ht : (Char.ofNat (c.toNat - 32)).toNat = c.toNat - 32 :=
      charOfNat_toNat_upper h65 h90
    simp only [pyUpperChar, if_pos h]
    rw [if_neg]
    rw [ht]
    omega
  · simp only [pyUpperChar, if_neg h]

lemma pyUpper_idem (s : String) : pyUpper (pyUpper s) = pyUpper s := by
  simp only [pyUpper, List.map_map]
  congr 1
  exact List.map_congr_left fun c _ => pyUpperChar_idem c

lemma pyUpper_eq_empty_iff (s : String) : pyUpper s = "" ↔ s = "" := by
  cases s with
  | mk data =>
    simp only [pyUpper]
    constructor
    · intro h
      have : data.map pyUpperChar = [] := by
        have := congrArg String.data h
        simpa using this
      simp only [List.map_eq_nil_iff] at this
      simp [this]
    · intro h
      have : data = [] := by
        have := congrArg String.data h
        simpa using this
      simp [this]

lemma djb2Core_eq_specCore (l : List Char) :
    djb2Core l = l.foldl (fun a c => 33 * a + c.toNat) 5381 := by
  simp only [djb2Core]
  congr 1
  funext h c
  simp [Nat.shiftLeft_eq]
  ring

/-- C1: `djb2_hash` equals the case-insensitive DJB2-16 reference function
(start 5381, `(acc<<5)+acc+codepoint` over the upper-cased input, low 16
bits, empty string ↦ 0); the empty string hashes to 0; the hash is invariant
under upper-casing its input, so "Max6675" and "MAX6675" hash identically. -/
theorem C1_djb2_hash_reference :
    (∀ s, djb2_hash s = djb2SpecRef s) ∧
    djb2_hash "" = 0 ∧
    (∀ s, djb2_hash s = djb2_hash (pyUpper s)) ∧
    djb2_hash "Max6675" = djb2_hash "MAX6675" := by
  refine ⟨?_, by decide, ?_, by decide⟩
  · intro s
    by_cases h : s = ""
    · simp [djb2_hash, djb2SpecRef, h]
    · simp only [djb2_hash, djb2SpecRef, if_neg h]
      rw [djb2Core_eq_specCore]
      norm_num
  · intro s
    by_cases h : s = ""
    · rw [h]
      rfl
    · have h2 : pyUpper s ≠ "" := fun hc => h ((pyUpper_eq_empty_iff s).mp hc)
      simp only [djb2_hash, if_neg h, if_neg h2]
      rw [pyUpper_idem]

lemma hashAlgSensors_length (l : List SensorRec) :
    (hashAlgSensors l).length =
      l.countP (fun x => truthy x.name && decide (djb2_hash (x.name.getD "") ≠ x.nameHash)) := by
  induction l with
  | nil => rfl
  | cons x rest ih =>
    simp only [hashAlgSensors, List.length_append, ih, List.countP_cons]
    by_cases h1 : truthy x.name
    · by_cases h2 : djb2_hash (x.name.getD "") = x.nameHash
      · simp [h1, h2]
      · simp [h1, h2]
        omega
    · simp [h1]

lemma hashAlgApps_length (l : List AppRec) :
    (hashAlgApps l).length =
      l.countP (fun a => truthy a.name && decide (djb2_hash (a.name.getD "") ≠ a.nameHash)) := by
  induction l with
  | nil => rfl
  | cons a rest ih =>
    simp only [hashAlgApps, List.length_append, ih, List.countP_cons]
    by_cases h1 : truthy a.name
    · by_cases h2 : djb2_hash (a.name.getD "") = a.nameHash
      · simp [h1, h2]
      · simp [h1, h2]
        omega
    · simp [h1]

lemma hashAlgUnits_length (l : List UnitRec) :
    (hashAlgUnits l).length =
      l.countP (fun u => truthy u.name && decide (djb2_hash (u.name.getD "") ≠ u.nameHash)) +
      l.countP (fun u => truthy u.aliasName && decide (djb2_hash (u.aliasName.getD "") ≠ u.aliasHash)) := by
  induction l with
  | nil => rfl
  | cons u rest ih =>
    simp only [hashAlgUnits, List.length_append, ih, List.countP_cons]
    by_cases h1 : truthy u.name
    · by_cases h2 : djb2_hash (u.name.getD "") = u.nameHash
      · by_cases h3 : truthy u.aliasName
        · by_cases h4 : djb2_hash (u.aliasName.getD "") = u.aliasHash
          · simp [h1, h2, h3, h4]
          · simp [h1, h2, h3, h4]
            omega
        · simp [h1, h2, h3]
      · by_cases h3 : truthy u.aliasName
        · by_cases h4 : djb2_hash (u.aliasName.getD "") = u.aliasHash
          · simp [h1, h2, h3, h4]
            omega
          · simp [h1, h2, h3, h4]
            omega
        · simp [h1, h2, h3]
          omega
    · by_cases h3 : truthy u.aliasName
      · by_cases h4 : djb2_hash (u.aliasName.getD "") = u.aliasHash
        · simp [h1, h3, h4]
        · simp [h1, h3, h4]
          omega
      · simp [h1, h3]

lemma hashAlgSensors_eq_nil_iff (l : List SensorRec) :
    hashAlgSensors l = [] ↔
      ∀ x ∈ l, truthy x.name → djb2_hash (x.name.getD "") = x.nameHash := by
  induction l with
  | nil => simp [hashAlgSensors]
  | cons x rest ih =>
    simp only [hashAlgSensors, List.append_eq_nil, ih, List.mem_cons]
    constructor
    · rintro ⟨h1, h2⟩ y hy ht
      rcases hy with rfl | hy
      · by_contra hne
        simp [ht, hne] at h1
      · exact h2 y hy ht
    · intro h
      refine ⟨?_, fun y hy ht => h y (Or.inr hy) ht⟩
      by_cases ht : truthy x.name
      · simp [ht, h x (Or.inl rfl) ht]
      · simp [ht]

lemma hashAlgApps_eq_nil_iff (l : List AppRec) :
    hashAlgApps l = [] ↔
      ∀ a ∈ l, truthy a.name → djb2_hash (a.name.getD "") = a.nameHash := by
  induction l with
  | nil => simp [hashAlgApps]
  | cons x rest ih =>
    simp only [hashAlgApps, List.append_eq_nil, ih, List.mem_cons]
    constructor
    · rintro ⟨h1, h2⟩ y hy ht
      rcases hy with rfl | hy
      · by_contra hne
        simp [ht, hne] at h1
      · exact h2 y hy ht
    · intro h
      refine ⟨?_, fun y hy ht => h y (Or.inr hy) ht⟩
      by_cases ht : truthy x.name
      · simp [ht, h x (Or.inl rfl) ht]
      · simp [ht]

lemma hashAlgUnits_eq_nil_iff (l : List UnitRec) :
    hashAlgUnits l = [] ↔
      ∀ u ∈ l, (truthy u.name → djb2_hash (u.name.getD "") = u.nameHash) ∧
               (truthy u.aliasName → djb2_hash (u.aliasName.getD "") = u.aliasHash) := by
  induction l with
  | nil => simp [hashAlgUnits]
  | cons x rest ih =>
    simp only [hashAlgUnits, List.append_eq_nil, ih, List.mem_cons]
    constructor
    · rintro ⟨⟨h1, h2⟩, h3⟩ y hy
      rcases hy with rfl | hy
      · constructor
        · intro ht
          by_contra hne
          simp [ht, hne] at h1
        · intro ht
          by_contra hne
          simp [ht, hne] at h2
      · exact h3 y hy
    · intro h
      refine ⟨⟨?_, ?_⟩, fun y hy => h y (Or.inr hy)⟩
      · by_cases ht : truthy x.name
        · simp [ht, (h x (Or.inl rfl)).1 ht]
        · simp [ht]
      · by_cases ht : truthy x.aliasName
        · simp [ht, (h x (Or.inl rfl)).2 ht]
        · simp [ht]

/-- C2: `validate_hash_algorithm` reports one error exactly per entry with a
truthy (present, non-empty) name whose stored `nameHash` differs from the
recomputed `djb2_hash` of that name, and one per unit with a truthy alias
whose stored `aliasHash` differs (the length equation counts the findings);
it returns the empty list precisely when every stored hash matches. -/
theorem C2_validate_hash_algorithm_exact :
    ∀ (sensors : List SensorRec) (apps : List AppRec) (units : List UnitRec),
      ((validate_hash_algorithm sensors apps units).length =
        sensors.countP (fun x => truthy x.name && decide (djb2_hash (x.name.getD "") ≠ x.nameHash)) +
        apps.countP (fun a => truthy a.name && decide (djb2_hash (a.name.getD "") ≠ a.nameHash)) +
        units.countP (fun u => truthy u.name && decide (djb2_hash (u.name.getD "") ≠ u.nameHash)) +
        units.countP (fun u => truthy u.aliasName && decide (djb2_hash (u.aliasName.getD "") ≠ u.aliasHash))) ∧
      (validate_hash_algorithm sensors apps units = [] ↔
        (∀ x ∈ sensors, truthy x.name → djb2_hash (x.name.getD "") = x.nameHash) ∧
        (∀ a ∈ apps, truthy a.name → djb2_hash (a.name.getD "") = a.nameHash) ∧
        (∀ u ∈ units,
          (truthy u.name → djb2_hash (u.name.getD "") = u.nameHash) ∧
          (truthy u.aliasName → djb2_hash (u.aliasName.getD "") = u.aliasHash))) := by
  intro sensors apps units
  constructor
  · simp [validate_hash_algorithm, hashAlgSensors_length, hashAlgApps_length,
      hashAlgUnits_length]
    omega
  · simp only [validate_hash_algorithm, List.append_eq_nil,
      hashAlgSensors_eq_nil_iff, hashAlgApps_eq_nil_iff, hashAlgUnits_eq_nil_iff]
    tauto

lemma nameCollAux_eq_nil_iff (mk : Nat → String → String → Nat → CollFinding)
    (l : List (Option String × Nat)) (pos : Nat) (d : Nat → Option String) :
    nameCollAux mk l pos d = [] ↔
      ((∀ x ∈ l, truthy x.1 = true → d x.2 = none) ∧
       List.Pairwise (fun x y => truthy x.1 = true → truthy y.1 = true → x.2 ≠ y.2) l) := by
  induction l generalizing pos d with
  | nil => simp [nameCollAux]
  | cons x rest ih =>
    by_cases ht : truthy x.1
    · cases hd : d x.2 with
      | some other =>
        simp only [nameCollAux, ht, if_true, hd]
        constructor
        · intro h
          cases h
        · rintro ⟨h1, -⟩
          have hx := h1 x (List.mem_cons_self _ _) ht
          rw [hd] at hx
          cases hx
      | none =>
        simp only [nameCollAux, ht, if_true, hd, ih]
        constructor
        · rintro ⟨h1, h2⟩
          refine ⟨?_, ?_⟩
          · intro y hy hty
            rcases List.mem_cons.mp hy with rfl | hy'
            · exact hd
            · have hy2 := h1 y hy' hty
              by_cases he : y.2 = x.2
              · rw [he] at hy2
                simp at hy2
              · simpa [he] using hy2
          · rw [List.pairwise_cons]
            refine ⟨?_, h2⟩
            intro y hy htx hty he
            have hy2 := h1 y hy hty
            rw [← he] at hy2
            simp at hy2
        · rintro ⟨h1, h2⟩
          rw [List.pairwise_cons] at h2
          refine ⟨?_, h2.2⟩
          intro y hy hty
          have hne : y.2 ≠ x.2 := fun he => (h2.1 y hy ht hty) he.symm
          simp only [hne, if_neg hne]
          exact h1 y (List.mem_cons_of_mem _ hy) hty
    · have ht' : truthy x.1 = false := by simpa using ht
      simp only [nameCollAux, ht', Bool.false_eq_true, if_false, ih, List.pairwise_cons]
      constructor
      · rintro ⟨h1, h2⟩
        refine ⟨?_, fun y hy htx hty => absurd htx (by simp [ht']), h2⟩
        intro y hy hty
        rcases List.mem_cons.mp hy with rfl | hy'
        · rw [ht'] at hty
          cases hty
        · exact h1 y hy' hty
      · rintro ⟨h1, -, h2⟩
        exact ⟨fun y hy hty => h1 y (List.mem_cons_of_mem _ hy) hty, h2⟩

lemma unitDict_lookup_none_iff (u : UnitRec) (d : Nat → Option (Option String)) (k : Nat) :
    ((fun k => if k = u.aliasHash then some u.aliasName
      else if k = u.nameHash then some u.name else d k) k = none) ↔
    (k ≠ u.aliasHash ∧ k ≠ u.nameHash ∧ d k = none) := by
  by_cases e1 : k = u.aliasHash
  · simp [e1]
  · by_cases e2 : k = u.nameHash
    · simp only [e1, e2]
      split <;> simp
    · simp [e1, e2]

lemma unitCollAux_eq_nil_iff (l : List UnitRec) (pos : Nat)
    (d : Nat → Option (Option String)) :
    unitCollAux l pos d = [] ↔
      ((∀ u ∈ l, truthy u.name = true → d u.nameHash = none ∧ d u.aliasHash = none) ∧
       List.Pairwise unitHashesDisjoint l) := by
  induction l generalizing pos d with
  | nil => simp [unitCollAux]
  | cons u rest ih =>
    by_cases ht : truthy u.name
    · have key : d u.nameHash = none → d u.aliasHash = none →
          (unitCollAux rest (pos + 1)
            (fun k => if k = u.aliasHash then some u.aliasName
              else if k = u.nameHash then some u.name else d k) = [] ↔
           ((∀ y ∈ u :: rest, truthy y.name = true →
               d y.nameHash = none ∧ d y.aliasHash = none) ∧
            List.Pairwise unitHashesDisjoint (u :: rest))) := by
        intro hdn hda
        rw [ih, List.pairwise_cons]
        constructor
        · rintro ⟨h1, h2⟩
          refine ⟨?_, ?_, h2⟩
          · intro y hy hty
            rcases List.mem_cons.mp hy with rfl | hy'
            · exact ⟨hdn, hda⟩
            · have hv := h1 y hy' hty
              exact ⟨((unitDict_lookup_none_iff u d _).mp hv.1).2.2,
                     ((unitDict_lookup_none_iff u d _).mp hv.2).2.2⟩
          · intro y hy htu hty
            have hv := h1 y hy hty
            have hn := (unitDict_lookup_none_iff u d _).mp hv.1
            have ha := (unitDict_lookup_none_iff u d _).mp hv.2
            exact ⟨fun e => hn.2.1 e.symm, fun e => ha.2.1 e.symm,
                   fun e => hn.1 e.symm, fun e => ha.1 e.symm⟩
        · rintro ⟨h1, hhead, h2⟩
          refine ⟨?_, h2⟩
          intro y hy hty
          have hd := hhead y hy ht hty
          have hv := h1 y (List.mem_cons_of_mem _ hy) hty
          exact ⟨(unitDict_lookup_none_iff u d _).mpr
                   ⟨fun e => hd.2.2.1 e.symm, fun e => hd.1 e.symm, hv.1⟩,
                 (unitDict_lookup_none_iff u d _).mpr
                   ⟨fun e => hd.2.2.2 e.symm, fun e => hd.2.1 e.symm, hv.2⟩⟩
      cases hdn : d u.nameHash with
      | some other =>
        simp only [unitCollAux]
        rw [if_pos ht, hdn]
        constructor
        · intro h
          exact absurd h (List.cons_ne_nil _ _)
        · rintro ⟨h1, -⟩
          have hx := (h1 u (List.mem_cons_self _ _) ht).1
          rw [hdn] at hx
          cases hx
      | none =>
        simp only [unitCollAux]
        rw [if_pos ht, hdn]
        by_cases hae : u.aliasHash = u.nameHash
        · rw [if_pos hae]
          have hda : d u.aliasHash = none := by rw [hae]; exact hdn
          exact key hdn hda
        · rw [if_neg hae]
          cases hda : d u.aliasHash with
          | some other2 =>
            constructor
            · intro h
              exact absurd h (List.cons_ne_nil _ _)
            · rintro ⟨h1, -⟩
              have hx := (h1 u (List.mem_cons_self _ _) ht).2
              rw [hda] at hx
              cases hx
          | none =>
            exact key hdn hda
    · have ht' : truthy u.name = false := by simpa using ht
      simp only [unitCollAux]
      rw [if_neg (by simp [ht'])]
      rw [ih, List.pairwise_cons]
      constructor
      · rintro ⟨h1, h2⟩
        refine ⟨?_, ?_, h2⟩
        · intro y hy hty
          rcases List.mem_cons.mp hy with rfl | hy'
          · rw [ht'] at hty
            cases hty
          · exact h1 y hy' hty
        · intro y hy htu hty
          rw [ht'] at htu
          cases htu
      · rintro ⟨h1, -, h2⟩
        exact ⟨fun y hy hty => h1 y (List.mem_cons_of_mem _ hy) hty, h2⟩

/-- C3 (counterexample): with three implemented sensors sharing one hash the
collision pass emits two errors, while the claim's "an error exactly for each
pair of distinct implemented entries having equal nameHash" demands three
(one per unordered pair). -/
theorem C3_counterexample_three_way :
    (validate_hash_collisions collSensorsCex [] []).length = 2 ∧
    sensorCollidingPairCount collSensorsCex = 3 ∧
    ¬((validate_hash_collisions collSensorsCex [] []).length =
        sensorCollidingPairCount collSensorsCex) := by
  refine ⟨by decide, by decide, by decide⟩

/-- C3 (amended): `validate_hash_collisions` returns no errors precisely when
truthy-named sensors have pairwise distinct name hashes, truthy-named
applications do too, and any two distinct truthy-named units contribute
disjoint hash sets to the shared name/alias namespace (a unit's own alias
hash may equal its own name hash). In particular entries with distinct
hashes produce no false positives, and any such collision is reported by at
least one error — but a k-way collision yields k−1 errors, each naming the
first entry, not one error per colliding pair. -/
theorem C3_hash_collisions_iff :
    ∀ (sensors : List SensorRec) (apps : List AppRec) (units : List UnitRec),
      validate_hash_collisions sensors apps units = [] ↔
        (List.Pairwise (fun x y : SensorRec =>
            truthy x.name = true → truthy y.name = true → x.nameHash ≠ y.nameHash) sensors ∧
         List.Pairwise (fun x y : AppRec =>
            truthy x.name = true → truthy y.name = true → x.nameHash ≠ y.nameHash) apps ∧
         List.Pairwise unitHashesDisjoint units) := by
  intro sensors apps units
  simp [validate_hash_collisions, List.append_eq_nil, nameCollAux_eq_nil_iff,
    unitCollAux_eq_nil_iff, List.pairwise_map]

lemma unitCollAux_alias_mem (l : List UnitRec) (pos : Nat)
    (d : Nat → Option (Option String)) (p : Nat) (al other : Option String) (h : Nat) :
    CollFinding.unitAlias p al other h ∈ unitCollAux l pos d →
    ∃ i u, l.get? i = some u ∧ p = pos + i ∧ truthy u.name = true ∧
      al = u.aliasName ∧ h = u.aliasHash ∧ u.aliasHash ≠ u.nameHash := by
  induction l generalizing pos d with
  | nil =>
    intro hm
    simp [unitCollAux] at hm
  | cons u rest ih =>
    intro hm
    have step : ∀ d', CollFinding.unitAlias p al other h ∈ unitCollAux rest (pos + 1) d' →
        ∃ i u', (u :: rest).get? i = some u' ∧ p = pos + i ∧ truthy u'.name = true ∧
          al = u'.aliasName ∧ h = u'.aliasHash ∧ u'.aliasHash ≠ u'.nameHash := by
      intro d' hm'
      obtain ⟨i, u', hg, hp, h1, h2, h3, h4⟩ := ih (pos + 1) d' hm'
      exact ⟨i + 1, u', by simpa using hg, by omega, h1, h2, h3, h4⟩
    by_cases ht : truthy u.name
    · simp only [unitCollAux] at hm
      rw [if_pos ht] at hm
      cases hdn : d u.nameHash with
      | some other1 =>
        simp only [hdn] at hm
        rcases List.mem_cons.mp hm with he | hm2
        · cases he
        · cases hda : d u.aliasHash with
          | some other2 =>
            simp only [hda] at hm2
            by_cases hne : u.aliasHash ≠ u.nameHash
            · rw [if_pos hne] at hm2
              rcases List.mem_cons.mp hm2 with he | hm3
              · obtain ⟨hp, hal, -, hh⟩ := CollFinding.unitAlias.inj he
                exact ⟨0, u, rfl, by omega, ht, hal, hh, hne⟩
              · exact step _ hm3
            · rw [if_neg hne] at hm2
              exact step _ hm2
          | none =>
            simp only [hda] at hm2
            exact step _ hm2
      | none =>
        simp only [hdn] at hm
        by_cases hae : u.aliasHash = u.nameHash
        · rw [if_pos hae] at hm
          exact step _ hm
        · rw [if_neg hae] at hm
          cases hda : d u.aliasHash with
          | some other2 =>
            simp only [hda] at hm
            rcases List.mem_cons.mp hm with he | hm2
            · obtain ⟨hp, hal, -, hh⟩ := CollFinding.unitAlias.inj he
              exact ⟨0, u, rfl, by omega, ht, hal, hh, hae⟩
            · exact step _ hm2
          | none =>
            simp only [hda] at hm
            exact step _ hm
    · simp only [unitCollAux] at hm
      rw [if_neg ht] at hm
      exact step _ hm

/-- C10: a unit's alias hash that merely coincides with its own name hash is
never reported: every alias-collision finding is emitted at a position whose
unit has `aliasHash ≠ nameHash` (so the colliding owner was stored by an
earlier, different unit), and a unit list in which any two distinct units
have disjoint hash sets — self name/alias coincidences allowed — yields no
findings at all. -/
theorem C10_no_self_alias_collision :
    (∀ (units : List UnitRec) (p : Nat) (al other : Option String) (h : Nat),
      CollFinding.unitAlias p al other h ∈ validate_hash_collisions [] [] units →
      ∃ u, units.get? p = some u ∧ truthy u.name = true ∧ al = u.aliasName ∧
        h = u.aliasHash ∧ u.aliasHash ≠ u.nameHash) ∧
    (∀ units : List UnitRec, List.Pairwise unitHashesDisjoint units →
      validate_hash_collisions [] [] units = []) := by
  constructor
  · intro units p al other h hm
    have hm' : CollFinding.unitAlias p al other h ∈ unitCollAux units 0 (fun _ => none) := by
      simpa [validate_hash_collisions, nameCollAux] using hm
    obtain ⟨i, u, hg, hp, h1, h2, h3, h4⟩ :=
      unitCollAux_alias_mem units 0 (fun _ => none) p al other h hm'
    refine ⟨u, ?_, h1, h2, h3, h4⟩
    rw [hp]
    simpa using hg
  · intro units hpair
    simp only [validate_hash_collisions, nameCollAux, List.map_nil, List.nil_append]
    exact (unitCollAux_eq_nil_iff units 0 (fun _ => none)).mpr
      ⟨fun u _ _ => ⟨rfl, rfl⟩, hpair⟩

/-- C10 (witness): a single unit whose alias hash equals its own name hash
produces no collision finding. -/
theorem C10_no_self_alias_collision_witness :
    validate_hash_collisions [] [] [⟨0, some "VOLT", 5, some "V", 5⟩] = [] :=
  C10_no_self_alias_collision.2 [⟨0, some "VOLT", 5, some "V", 5⟩]
    (by simp)

lemma vir_err_some_iff (sensors : List SensorRec) (a : AppRec) (i : Nat)
    (n : Option String) (si : Option Nat) :
    ((if a.is_implemented then
        match sensors.find? (fun s => a.defaultSensor == some s.index) with
        | none => some (IdxFinding.missingSensor a.index a.name a.defaultSensor)
        | some _ => none
      else none) = some (IdxFinding.missingSensor i n si)) ↔
      (a.index = i ∧ a.name = n ∧ a.defaultSensor = si ∧ a.is_implemented = true ∧
       sensors.find? (fun s => a.defaultSensor == some s.index) = none) := by
  by_cases himp : a.is_implemented
  · cases hf : sensors.find? (fun s => a.defaultSensor == some s.index) with
    | none => simp [himp, hf]
    | some s => simp [himp, hf]
  · simp [himp]

lemma vir_warn_some_iff (sensors : List SensorRec) (a : AppRec) (i : Nat)
    (n : Option String) (si : Option Nat) :
    ((if a.is_implemented then
        match sensors.find? (fun s => a.defaultSensor == some s.index) with
        | none => none
        | some s =>
          if s.is_implemented then none
          else some (IdxFinding.unimplementedSensor a.index a.name a.defaultSensor)
      else none) = some (IdxFinding.unimplementedSensor i n si)) ↔
      (a.index = i ∧ a.name = n ∧ a.defaultSensor = si ∧ a.is_implemented = true ∧
       ∃ s, sensors.find? (fun s => a.defaultSensor == some s.index) = some s ∧
         s.is_implemented = false) := by
  by_cases himp : a.is_implemented
  · cases hf : sensors.find? (fun s => a.defaultSensor == some s.index) with
    | none => simp [himp, hf]
    | some s =>
      by_cases hsi : s.is_implemented
      · simp [himp, hf, hsi]
      · simp only [himp, if_true, hf, hsi, Bool.false_eq_true, if_false,
          Option.some.injEq, IdxFinding.unimplementedSensor.injEq]
        constructor
        · rintro ⟨h1, h2, h3⟩
          exact ⟨h1, h2, h3, trivial, s, rfl, by simpa using hsi⟩
        · rintro ⟨h1, h2, h3, -, -⟩
          exact ⟨h1, h2, h3⟩
  · simp [himp]

/-- C4: `validate_index_references` returns an error exactly for each
implemented application whose `defaultSensor` matches no sensor index (and
such an application never yields a warning), and a warning exactly for each
implemented application whose `defaultSensor` resolves to a sensor that is
unimplemented (and such an application never yields an error and is never
dropped); unimplemented applications yield no finding, since every finding's
application is implemented. -/
theorem C4_index_references :
    ∀ (apps : List AppRec) (sensors : List SensorRec) (i : Nat)
      (n : Option String) (si : Option Nat),
      (IdxFinding.missingSensor i n si ∈ (validate_index_references apps sensors).1 ↔
        ∃ a ∈ apps, a.index = i ∧ a.name = n ∧ a.defaultSensor = si ∧
          a.is_implemented = true ∧ (∀ s ∈ sensors, a.defaultSensor ≠ some s.index)) ∧
      (IdxFinding.unimplementedSensor i n si ∈ (validate_index_references apps sensors).2 ↔
        ∃ a ∈ apps, a.index = i ∧ a.name = n ∧ a.defaultSensor = si ∧
          a.is_implemented = true ∧
          ∃ s, sensors.find? (fun s => a.defaultSensor == some s.index) = some s ∧
            s.is_implemented = false) ∧
      (IdxFinding.missingSensor i n si ∉ (validate_index_references apps sensors).2) ∧
      (IdxFinding.unimplementedSensor i n si ∉ (validate_index_references apps sensors).1) := by
  intro apps sensors i n si
  refine ⟨?_, ?_, ?_, ?_⟩
  · simp only [validate_index_references, List.mem_filterMap]
    constructor
    · rintro ⟨a, ha, hfa⟩
      rw [vir_err_some_iff] at hfa
      refine ⟨a, ha, hfa.1, hfa.2.1, hfa.2.2.1, hfa.2.2.2.1, ?_⟩
      intro s hs he
      have hns := List.find?_eq_none.mp hfa.2.2.2.2 s hs
      simp [he] at hns
    · rintro ⟨a, ha, h1, h2, h3, h4, h5⟩
      refine ⟨a, ha, ?_⟩
      rw [vir_err_some_iff]
      refine ⟨h1, h2, h3, h4, ?_⟩
      rw [List.find?_eq_none]
      intro s hs
      simp [h5 s hs]
  · simp only [validate_index_references, List.mem_filterMap]
    constructor
    · rintro ⟨a, ha, hfa⟩
      rw [vir_warn_some_iff] at hfa
      exact ⟨a, ha, hfa.1, hfa.2.1, hfa.2.2.1, hfa.2.2.2.1, hfa.2.2.2.2⟩
    · rintro ⟨a, ha, h1, h2, h3, h4, h5⟩
      refine ⟨a, ha, ?_⟩
      rw [vir_warn_some_iff]
      exact ⟨h1, h2, h3, h4, h5⟩
  · simp only [validate_index_references, List.mem_filterMap, not_exists]
    intro a
    rintro ⟨-, hfa⟩
    by_cases himp : a.is_implemented
    · rw [if_pos himp] at hfa
      cases hf : sensors.find? (fun s => a.defaultSensor == some s.index) with
      | none => simp [hf] at hfa
      | some s =>
        by_cases hsi : s.is_implemented
        · simp [hf, hsi] at hfa
        · simp [hf, hsi] at hfa
    · rw [if_neg himp] at hfa
      cases hfa
  · simp only [validate_index_references, List.mem_filterMap, not_exists]
    intro a
    rintro ⟨-, hfa⟩
    by_cases himp : a.is_implemented
    · rw [if_pos himp] at hfa
      cases hf : sensors.find? (fun s => a.defaultSensor == some s.index) with
      | none => simp [hf] at hfa
      | some s => simp [hf] at hfa
    · rw [if_neg himp] at hfa
      cases hfa

/-- C8: converting a finalized internal input list to the persisted unified v1
format and back reproduces the original list exactly, field for field; an
input without a calibration (`calibration = none`) still has none after the
round trip, and this holds for any calibration payload type. -/
theorem C8_unified_roundtrip :
    ∀ (C : Type) (inputs : List (InternalInput C)),
      convert_from_unified_format (convert_to_unified_format inputs) = inputs := by
  intro C inputs
  induction inputs with
  | nil => rfl
  | cons i rest ih =>
    simpa [convert_to_unified_format, convert_from_unified_format] using ih

/-- C7 (counterexample): an I2C-requiring sensor assigned the pin string
"i2c" produces no error, although "i2c" does not literally equal the
reserved marker "I2C" — the comparison in the code is case-insensitive. -/
theorem C7_counterexample_lowercase_i2c :
    validate_pin_type_compatibility [pinCexInput] [pinCexSensor] "uno" = [] ∧
    pinCexInput.pin = some "i2c" ∧
    pinCexSensor.pinTypeRequirement = some "PIN_I2C" ∧
    ("i2c" : String) ≠ "I2C" := by
  refine ⟨by decide, rfl, rfl, by decide⟩

lemma pinCheckOne_eq_none_iff (sensors : List SensorRec) (inp : InputRec) :
    pinCheckOne sensors inp = none ↔
      ∀ sensor, sensors.find? (fun s => some s.index == inp.sensorIndex) = some sensor →
        truthy sensor.pinTypeRequirement = true →
        (if pinReq sensor = "i2c" then pyUpper (inp.pin.getD "") = "I2C"
         else pyUpper (inp.pin.getD "") ≠ "I2C" ∧
           ∀ t k, parse_pin (inp.pin.getD "") = some (t, k) →
             ¬(pinReq sensor = "digital" ∧ t = "analog") ∧
             ¬(pinReq sensor = "analog" ∧ t = "digital")) := by
  cases hf : sensors.find? (fun s => some s.index == inp.sensorIndex) with
  | none => simp [pinCheckOne, hf]
  | some sensor =>
    simp only [pinCheckOne, hf, Option.some.injEq, forall_eq']
    by_cases htr : truthy sensor.pinTypeRequirement
    · rw [if_pos htr]
      simp only [htr, forall_const]
      by_cases hreq : pinReq sensor = "i2c"
      · rw [if_pos hreq, if_pos hreq]
        by_cases hI : pyUpper (inp.pin.getD "") = "I2C" <;> simp [hI]
      · rw [if_neg hreq, if_neg hreq]
        by_cases hI : pyUpper (inp.pin.getD "") = "I2C"
        · simp [hI]
        · rw [if_neg hI]
          cases hp : parse_pin (inp.pin.getD "") with
          | none => simp [hp, hI]
          | some tk =>
            obtain ⟨t, k⟩ := tk
            by_cases hd : pinReq sensor = "digital" ∧ t = "analog"
            · simp [hp, hI, hd]
            · by_cases ha : pinReq sensor = "analog" ∧ t = "digital"
              · simp [hp, hI, hd, ha]
              · simp [hp, hI, hd, ha]
                tauto
    · have htr' : truthy sensor.pinTypeRequirement = false := by simpa using htr
      simp [htr']

/-- C7 (amended): `validate_pin_type_compatibility` returns no errors exactly
when every input satisfies its selected sensor's pin requirement under the
code's comparisons: the selected sensor is the first whose index matches; a
requirement of "i2c" (after stripping "PIN_" and lower-casing) demands a pin
whose upper-cased form is "I2C"; any other truthy requirement forbids an
upper-cased "I2C" pin and, when the pin parses (via `parse_pin`: strip and
upper-case, "A"-prefix + integer → analog, bare integer → digital, else no
finding), a "digital" requirement rejects an analog pin and an "analog"
requirement rejects a digital one. -/
theorem C7_pin_type_compatibility_iff :
    ∀ (inputs : List InputRec) (sensors : List SensorRec) (plat : String),
      validate_pin_type_compatibility inputs sensors plat = [] ↔
        ∀ inp ∈ inputs, ∀ sensor,
          sensors.find? (fun s => some s.index == inp.sensorIndex) = some sensor →
          truthy sensor.pinTypeRequirement = true →
          (if pinReq sensor = "i2c" then pyUpper (inp.pin.getD "") = "I2C"
           else pyUpper (inp.pin.getD "") ≠ "I2C" ∧
             ∀ t k, parse_pin (inp.pin.getD "") = some (t, k) →
               ¬(pinReq sensor = "digital" ∧ t = "analog") ∧
               ¬(pinReq sensor = "analog" ∧ t = "digital")) := by
  intro inputs sensors plat
  rw [validate_pin_type_compatibility, List.filterMap_eq_nil_iff]
  constructor
  · intro h inp hinp
    exact (pinCheckOne_eq_none_iff sensors inp).mp (h inp hinp)
  · intro h inp hinp
    exact (pinCheckOne_eq_none_iff sensors inp).mpr (h inp hinp)

lemma dict_foldl_lookup (val : PStrDef → String) (keep : PStrDef → Bool) :
    ∀ (defs : List PStrDef) (d0 : String → Option String) (name : String),
      (defs.foldl
        (fun d pd => if keep pd then
          (fun k => if k = pd.name then some (val pd) else d k) else d) d0) name =
      ((((defs.filter keep).reverse.find? (fun pd => pd.name == name)).map val).or
        (d0 name)) := by
  intro defs
  induction defs with
  | nil => intro d0 name; simp [Option.or]
  | cons pd rest ih =>
    intro d0 name
    simp only [List.foldl_cons, List.filter_cons]
    by_cases hk : keep pd
    · rw [if_pos hk, if_pos hk, ih, List.reverse_cons, List.find?_append]
      cases hf : (rest.filter keep).reverse.find? (fun q => q.name == name) with
      | some q => simp [Option.or]
      | none =>
        by_cases he : pd.name = name
        · have hbe : (pd.name == name) = true := by simp [he]
          simp [List.find?, hbe, he, Option.or]
        · have hbe : (pd.name == name) = false := by simp [he]
          have hne : ¬(name = pd.name) := fun h => he h.symm
          simp [List.find?, hbe, hne, Option.or]
    · rw [if_neg hk, if_neg hk]
      exact ih d0 name

lemma pstr_preobd_lookup (defs : List PStrDef) (name : String) :
    parse_pstr_table_preobd defs name =
      (defs.reverse.find? (fun pd => pd.name == name)).map
        (fun pd => String.join pd.segments) := by
  have h := dict_foldl_lookup (fun pd => String.join pd.segments) (fun _ => true)
    defs (fun _ => none) name
  simp only [if_true, List.filter_true] at h
  rw [parse_pstr_table_preobd, h]
  cases defs.reverse.find? (fun pd => pd.name == name) <;> simp [Option.or]

lemma openems_step_eq (d : String → Option String) (pd : PStrDef) :
    (match pd.segments with
     | [s] => if s ≠ "" then (fun k => if k = pd.name then some s else d k) else d
     | _ => d) =
    (if singleNonemptySegment pd then
      (fun k => if k = pd.name then some (pd.segments.headD "") else d k) else d) := by
  cases hs : pd.segments with
  | nil => simp [singleNonemptySegment, hs]
  | cons s rest =>
    cases rest with
    | nil =>
      by_cases he : s = ""
      · simp [singleNonemptySegment, hs, he]
      · simp [singleNonemptySegment, hs, he]
    | cons s2 rest2 => simp [singleNonemptySegment, hs]

lemma pstr_openems_lookup (defs : List PStrDef) (name : String) :
    parse_pstr_table_openems defs name =
      ((defs.filter singleNonemptySegment).reverse.find?
          (fun pd => pd.name == name)).map
        (fun pd => pd.segments.headD "") := by
  have hfun : parse_pstr_table_openems defs =
      defs.foldl
        (fun d pd => if singleNonemptySegment pd then
          (fun k => if k = pd.name then some (pd.segments.headD "") else d k) else d)
        (fun _ => none) := by
    rw [parse_pstr_table_openems]
    congr 1
    funext d pd
    exact openems_step_eq d pd
  rw [hfun, dict_foldl_lookup]
  cases (defs.filter singleNonemptySegment).reverse.find? (fun pd => pd.name == name) <;>
    simp [Option.or]

/-- C6 (counterexample): a macro defined as two adjacent literals `"a" "b"`
resolves to the joined value "ab" in the preobd variant, but the openems
variant's regex does not match it at all, so the macro is absent from its
table instead of mapping to the concatenation. -/
theorem C6_counterexample_two_literals :
    parse_pstr_table_openems pstrCexDefs "PSTR_X" = none ∧
    parse_pstr_table_preobd pstrCexDefs "PSTR_X" = some "ab" ∧
    ¬(parse_pstr_table_openems pstrCexDefs "PSTR_X" =
        some (String.join ["a", "b"])) := by
  refine ⟨by decide, by decide, by decide⟩

/-- C6 (amended): the preobd `_parse_pstr_macros` maps a name to the
concatenation, in source order, of all adjacent literal segments of its last
definition; the openems variant only records definitions consisting of
exactly one nonempty literal (its single value), and maps any
multi-literal (or empty-literal) definition to nothing. -/
theorem C6_pstr_tables :
    (∀ (defs : List PStrDef) (name : String),
      parse_pstr_table_preobd defs name =
        (defs.reverse.find? (fun pd => pd.name == name)).map
          (fun pd => String.join pd.segments)) ∧
    (∀ (defs : List PStrDef) (name : String),
      parse_pstr_table_openems defs name =
        ((defs.filter singleNonemptySegment).reverse.find?
            (fun pd => pd.name == name)).map
          (fun pd => pd.segments.headD "")) :=
  ⟨pstr_preobd_lookup, pstr_openems_lookup⟩

/-- C5 (counterexample): a field value that starts with "0x" but is not a
valid hexadecimal literal makes `int(value_str, 16)` raise `ValueError`
(modelled by `none`), aborting the parse of the whole registry — the field
does not degrade to its raw text. -/
theorem C5_counterexample_bad_hex :
    resolveField "0x1G" (fun _ => none) (fun _ => none) = none ∧
    parse_structs [⟨none, "{ .nameHash = 0x1G }", [("nameHash", "0x1G")]⟩]
      (fun _ => none) (fun _ => none) = none := by
  refine ⟨by decide, by decide⟩

/-- C5 (amended): field resolution is total except on a value that starts
with "0x": a value that is not a macro reference, enum constant, `nullptr`,
boolean token, hexadecimal literal, or numeric literal degrades to its raw
trimmed text, and resolution raises (`none`) exactly when the value starts
with "0x", matches no macro or enum, and its remainder is not a valid
hexadecimal string. -/
theorem C5_resolution_totality :
    ∀ (v : String) (pstr : String → Option String) (enums : String → Option Int),
      (pyStartsWith v "0x" = false → (resolveField v pstr enums).isSome = true) ∧
      (pstr v = none → enums v = none → v ≠ "nullptr" → v ≠ "true" → v ≠ "false" →
        pyStartsWith v "0x" = false → pyContainsChar v '.' = false →
        pyIntParse v = none → resolveField v pstr enums = some (PyVal.str v)) ∧
      (pstr v = none → enums v = none → v ≠ "nullptr" → v ≠ "true" → v ≠ "false" →
        pyStartsWith v "0x" = false → pyContainsChar v '.' = true →
        pyFloatOk v = false → resolveField v pstr enums = some (PyVal.str v)) ∧
      (resolveField v pstr enums = none ↔
        (pstr v = none ∧ enums v = none ∧ v ≠ "nullptr" ∧ v ≠ "true" ∧ v ≠ "false" ∧
         pyStartsWith v "0x" = true ∧ pyHexParse v = none)) := by
  intro v pstr enums
  have master : resolveField v pstr enums = none ↔
      (pstr v = none ∧ enums v = none ∧ v ≠ "nullptr" ∧ v ≠ "true" ∧ v ≠ "false" ∧
       pyStartsWith v "0x" = true ∧ pyHexParse v = none) := by
    cases hp : pstr v with
    | some s => simp [resolveField, hp]
    | none =>
      cases he : enums v with
      | some n => simp [resolveField, hp, he]
      | none =>
        by_cases h1 : v = "nullptr"
        · subst h1
          simp [resolveField, hp, he]
        · by_cases h2 : v = "true"
          · subst h2
            simp [resolveField, hp, he, h1]
          · by_cases h3 : v = "false"
            · subst h3
              simp [resolveField, hp, he, h1, h2]
            · by_cases h4 : pyStartsWith v "0x"
              · cases hh : pyHexParse v with
                | some n => simp [resolveField, hp, he, h1, h2, h3, h4, hh]
                | none => simp [resolveField, hp, he, h1, h2, h3, h4, hh]
              · have h4' : pyStartsWith v "0x" = false := by simpa using h4
                by_cases h5 : pyContainsChar v '.'
                · by_cases h6 : pyFloatOk v <;>
                    simp [resolveField, hp, he, h1, h2, h3, h4', h5, h6]
                · cases hi : pyIntParse v with
                  | some n => simp [resolveField, hp, he, h1, h2, h3, h4', h5, hi]
                  | none => simp [resolveField, hp, he, h1, h2, h3, h4', h5, hi]
  refine ⟨?_, ?_, ?_, master⟩
  · intro h0
    cases hres : resolveField v pstr enums with
    | some pv => rfl
    | none =>
      have := (master.mp hres).2.2.2.2.2.1
      rw [h0] at this
      cases this
  · intro hp he h1 h2 h3 h4 h5 hi
    simp [resolveField, hp, he, h1, h2, h3, h4, h5, hi]
  · intro hp he h1 h2 h3 h4 h5 h6
    simp [resolveField, hp, he, h1, h2, h3, h4, h5, h6]

/-- C5 (witness): the amended totality theorem applied at concrete inputs —
the plain text "hello" resolves to itself, and a value not starting with
"0x" always resolves. -/
theorem C5_resolution_totality_witness :
    resolveField "hello" (fun _ => none) (fun _ => none) = some (PyVal.str "hello") :=
  (C5_resolution_totality "hello" (fun _ => none) (fun _ => none)).2.1
    rfl rfl (by decide) (by decide) (by decide) (by decide) (by decide) (by decide)

lemma parseStructsGo_indices :
    ∀ (entries : List RawEntry) (cur : Nat) (pstr : String → Option String)
      (enums : String → Option Int) (items : List RegItem),
      parseStructsGo entries cur pstr enums = some items →
      (∀ i e, entries.get? i = some e → e.annIndex = none ∨ e.annIndex = some (cur + i)) →
      items.map RegItem.index = List.range' cur entries.length := by
  intro entries
  induction entries with
  | nil =>
    intro cur pstr enums items hp hann
    simp only [parseStructsGo, Option.some.injEq] at hp
    subst hp
    simp [List.range']
  | cons e rest ih =>
    intro cur pstr enums items hp hann
    simp only [parseStructsGo] at hp
    cases hres : resolveFields e.fields pstr enums [] [] with
    | none => simp [hres] at hp
    | some fu =>
      obtain ⟨fs, used⟩ := fu
      simp only [hres] at hp
      cases hrec : parseStructsGo rest (cur + 1) pstr enums with
      | none => simp [hrec] at hp
      | some items' =>
        simp only [hrec, Option.some.injEq] at hp
        subst hp
        have hidx : (match e.annIndex with | some n => n | none => cur) = cur := by
          rcases hann 0 e rfl with h | h
          · simp [h]
          · simp [h]
        have hih := ih (cur + 1) pstr enums items' hrec ?_
        · simp only [List.map_cons, hih, List.length_cons, List.range'_succ]
          rw [hidx]
        · intro i e' hg
          rcases hann (i + 1) e' (by simpa using hg) with h | h
          · exact Or.inl h
          · right
            rw [h]
            congr 1
            omega

/-- C9 (counterexample): with a first entry annotated `Index 1` and a second
unannotated entry, the positional counter still assigns 1 to the second
entry, so the registry carries the duplicated index list [1, 1]. -/
theorem C9_counterexample_duplicate_index :
    ((parse_structs [⟨some 1, "", []⟩, ⟨none, "", []⟩] (fun _ => none)
        (fun _ => none)).map (fun items => items.map RegItem.index)) = some [1, 1] ∧
    ¬ ([1, 1] : List Nat).Nodup := by
  refine ⟨by decide, by decide⟩

/-- C9 (amended): each entry's index is its explicit `Index N` annotation
when present, else its position among block siblings starting at 0; the
indices need not be unique in general, but they are pairwise distinct
whenever every explicit annotation agrees with its entry's position — in
particular whenever no annotations are present, since then the indices are
exactly 0, 1, 2, …. -/
theorem C9_index_uniqueness :
    ∀ (entries : List RawEntry) (pstr : String → Option String)
      (enums : String → Option Int) (items : List RegItem),
      parse_structs entries pstr enums = some items →
      (∀ i e, entries.get? i = some e → e.annIndex = none ∨ e.annIndex = some i) →
      (items.map RegItem.index).Nodup := by
  intro entries pstr enums items hp hann
  have h := parseStructsGo_indices entries 0 pstr enums items hp ?_
  · rw [h]
    simp [List.nodup_range']
  · intro i e hg
    rcases hann i e hg with h | h
    · exact Or.inl h
    · right
      simpa using h

/-- C9 (witness): the amended theorem applied to a concrete two-entry block
whose single annotation matches its position. -/
theorem C9_index_uniqueness_witness :
    (([⟨0, false, "", [], []⟩, ⟨1, false, "", [], []⟩] : List RegItem).map
      RegItem.index).Nodup :=
  C9_index_uniqueness [⟨none, "", []⟩, ⟨some 1, "", []⟩] (fun _ => none)
    (fun _ => none) _ rfl
    (by
      intro i e hg
      match i, hg with
      | 0, hg =>
        cases hg
        exact Or.inl rfl
      | 1, hg =>
        cases hg
        exact Or.inr rfl
      | n + 2, hg => cases hg)

end PreOBD
